import Mathlib

/-!
Verification of the GWSamplegen template-selection and SNR-pipeline code.

The definitions below are shallow embeddings of the Python source:
  * `GWSamplegen/waveform_utils.py` : template selection
    (`choose_templates_new`, `choose_templates`),
  * `asyncSNR.py` / `SNR_series.py`  : waveform projection, noise injection,
    batched SNR row layout and the memory-mapped output store,
  * `generate_configs.py`           : the mass-ordering invariant of saved
    sample records.

Floating-point values are modelled by `ℚ`, numpy integer arrays by `List ℤ`
or `List ℕ`.  Randomness (`np.random.choice`) is modelled by an explicit
draw argument: for a draw without replacement of `size` elements from a
population, numpy permutes the population and keeps a prefix, so the model
receives a permutation (or the drawn list) as input and the theorems carry
the hypothesis that it is a genuine permutation / valid sample.  Fallible
numpy operations (`ValueError` on a too-large sample without replacement,
on an empty population, on NaN probabilities and on a shape-mismatched
slice assignment) are modelled by `Option`, `none` meaning the Python code
raises.
-/

/-! ## Section 1: metric-distance template selection (waveform_utils.py lines 147-234) -/

/-- Embedding of `fast_point_distance` (waveform_utils.py lines 147-184):
for each of `m` templates, the squared euclidean distance in xi space
between the template coordinates `aXis` (one list per xi dimension, each of
length `m`) and the target coordinates `bXis`.  The pycbc call
`get_cov_params` that produces the coordinates is an external collaborator
and is not modelled. -/
def fast_point_distance (aXis : List (List ℚ)) (bXis : List ℚ) (m : ℕ) : List ℚ :=
  (List.range m).map fun t =>
    (List.range aXis.length).foldl
      (fun acc i => acc + ((aXis.getD i []).getD t 0 - bXis.getD i 0) ^ 2) 0

/-- Embedding of `np.argsort` applied to a distance array
(waveform_utils.py line 225): the list of indices `0, …, d.length - 1`
sorted so that the corresponding distances are ascending. -/
def np_argsort (d : List ℚ) : List ℕ :=
  List.insertionSort (fun i j => d.getD i 0 ≤ d.getD j 0) (List.range d.length)

/-- Embedding of `choose_templates_new` (waveform_utils.py lines 186-234)
specialised past the distance computation: `mismatches` is the distance of
every template to the target (line 220 or 222).  Line 225 argsorts, line
230 keeps the best index, and line 232 draws `n_templates - 1` indices
without replacement from `mismatches[1:limit]` (note the Python slice
clamps at the end of the list).  `rand` models the outcome of
`np.random.choice(pool, size, replace=False)`: numpy permutes the
population and keeps the first `size` entries, so `rand` is the permuted
pool and the theorems assume `rand.Perm pool`.  numpy raises `ValueError`
when the population is empty or smaller than the requested sample;
this is modelled by `none`. -/
def choose_templates_new (mismatches : List ℚ) (n_templates limit : ℕ)
    (rand : List ℕ) : Option (List ℕ) :=
  let sorted := np_argsort mismatches
  let pool := (sorted.drop 1).take (limit - 1)
  if pool.isEmpty ∨ pool.length < n_templates - 1 then none
  else some (sorted.headD 0 :: rand.take (n_templates - 1))

theorem np_argsort_perm (d : List ℚ) : (np_argsort d).Perm (List.range d.length) :=
  List.perm_insertionSort _ _

theorem np_argsort_length (d : List ℚ) : (np_argsort d).length = d.length := by
  simpa using (np_argsort_perm d).length_eq

theorem np_argsort_nodup (d : List ℚ) : (np_argsort d).Nodup :=
  (np_argsort_perm d).nodup_iff.mpr (List.nodup_range _)

theorem np_argsort_sorted (d : List ℚ) :
    (np_argsort d).Sorted (fun i j => d.getD i 0 ≤ d.getD j 0) := by
  haveI : IsTotal ℕ (fun i j => d.getD i 0 ≤ d.getD j 0) := ⟨fun i j => le_total _ _⟩
  haveI : IsTrans ℕ (fun i j => d.getD i 0 ≤ d.getD j 0) :=
    ⟨fun _ _ _ hij hjk => le_trans hij hjk⟩
  exact List.sorted_insertionSort _ _

/-- The head of the argsorted index list is an index of globally minimal
distance. -/
theorem np_argsort_head_min (d : List ℚ) (hd : 1 ≤ d.length) :
    ∃ b, (np_argsort d).head? = some b ∧ b < d.length ∧
      ∀ j < d.length, d.getD b 0 ≤ d.getD j 0 := by
  have hlen : (np_argsort d).length = d.length := np_argsort_length d
  obtain ⟨b, rest, hbr⟩ : ∃ b rest, np_argsort d = b :: rest := by
    cases hs : np_argsort d with
    | nil => rw [hs] at hlen; simp at hlen; omega
    | cons b rest => exact ⟨b, rest, rfl⟩
  refine ⟨b, by rw [hbr]; rfl, ?_, ?_⟩
  · have hbmem : b ∈ List.range d.length := by
      have := (np_argsort_perm d).mem_iff.mp (by rw [hbr]; exact List.mem_cons_self b rest)
      exact this
    exact List.mem_range.mp hbmem
  · intro j hj
    have hjmem : j ∈ np_argsort d :=
      (np_argsort_perm d).mem_iff.mpr (List.mem_range.mpr hj)
    rw [hbr] at hjmem
    rcases List.mem_cons.mp hjmem with h | h
    · rw [h]
    · have hsorted := np_argsort_sorted d
      rw [hbr] at hsorted
      exact (List.sorted_cons.mp hsorted).1 j h

/-- Helper: the candidate pool `mismatches[1:limit]` of `choose_templates_new`
has length `min (limit - 1) (d.length - 1)`. -/
theorem choose_pool_length (d : List ℚ) (limit : ℕ) :
    (((np_argsort d).drop 1).take (limit - 1)).length =
      min (limit - 1) (d.length - 1) := by
  rw [List.length_take, List.length_drop, np_argsort_length]

/-- Claim C1 (amended: additionally assuming `n_templates ≤ limit`).
For a catalog of at least `limit` templates with `1 < limit` and
`1 ≤ n_templates ≤ limit`, `choose_templates_new` succeeds and returns
exactly `n_templates` indices without duplicates; the first one minimises
the metric distance over the whole catalog, and the remaining ones are
drawn without replacement from positions `1 … limit - 1` of the
distance-sorted order. -/
theorem choose_templates_new_spec (d : List ℚ) (n limit : ℕ) (rand : List ℕ)
    (hd : 1 ≤ d.length) (hn : 1 ≤ n) (hlim : 1 < limit) (hlimd : limit ≤ d.length)
    (hnlim : n ≤ limit)
    (hrand : rand.Perm (((np_argsort d).drop 1).take (limit - 1))) :
    ∃ r, choose_templates_new d n limit rand = some r ∧
      r.length = n ∧ r.Nodup ∧
      (∃ b, r.head? = some b ∧ b < d.length ∧ ∀ j < d.length, d.getD b 0 ≤ d.getD j 0) ∧
      ∀ a ∈ r.tail, a ∈ ((np_argsort d).drop 1).take (limit - 1) := by
  obtain ⟨b, hb, hbd, hbmin⟩ := np_argsort_head_min d hd
  have hplen : (((np_argsort d).drop 1).take (limit - 1)).length =
      min (limit - 1) (d.length - 1) := choose_pool_length d limit
  have hcond : ¬ ((((np_argsort d).drop 1).take (limit - 1)).isEmpty = true ∨
      (((np_argsort d).drop 1).take (limit - 1)).length < n - 1) := by
    rw [List.isEmpty_iff_length_eq_zero]
    omega
  have hrlen : rand.length = (((np_argsort d).drop 1).take (limit - 1)).length :=
    hrand.length_eq
  have hres : choose_templates_new d n limit rand =
      some ((np_argsort d).headD 0 :: rand.take (n - 1)) := by
    simp only [choose_templates_new]
    exact if_neg hcond
  have hheadD : (np_argsort d).headD 0 = b := by
    cases hs : np_argsort d with
    | nil => rw [hs] at hb; simp at hb
    | cons x rest => rw [hs] at hb; simp at hb; simp [hs, hb]
  refine ⟨(np_argsort d).headD 0 :: rand.take (n - 1), hres, ?_, ?_, ?_, ?_⟩
  · simp only [List.length_cons, List.length_take, List.length_drop,
      np_argsort_length, hrlen]
    omega
  · have hpoolnd : (((np_argsort d).drop 1).take (limit - 1)).Nodup :=
      ((List.take_sublist _ _).trans (List.drop_sublist _ _)).nodup (np_argsort_nodup d)
    have hrandnd : rand.Nodup := hrand.nodup_iff.mpr hpoolnd
    have htakend : (rand.take (n - 1)).Nodup := (List.take_sublist _ _).nodup hrandnd
    rw [List.nodup_cons]
    refine ⟨?_, htakend⟩
    intro hmem
    rw [hheadD] at hmem
    have hmem2 : b ∈ ((np_argsort d).drop 1).take (limit - 1) :=
      hrand.subset ((List.take_sublist _ _).subset hmem)
    have hmem3 : b ∈ (np_argsort d).drop 1 := (List.take_sublist _ _).subset hmem2
    have hnd := np_argsort_nodup d
    cases hs : np_argsort d with
    | nil => rw [hs] at hb; simp at hb
    | cons x rest =>
      rw [hs] at hb hnd hmem3
      simp at hb
      simp only [List.drop_one, List.tail_cons] at hmem3
      rw [List.nodup_cons] at hnd
      exact hnd.1 (hb ▸ hmem3)
  · exact ⟨b, by rw [hheadD]; rfl, hbd, hbmin⟩
  · intro a ha
    simp only [List.tail_cons] at ha
    exact hrand.subset ((List.take_sublist _ _).subset ha)

/-- Witness for the amended claim C1 at a concrete catalog of three
templates: the hypotheses hold and the selection returns a two-element
duplicate-free list headed by the nearest template. -/
theorem choose_templates_new_spec_witness :
    (1 ≤ ([(0 : ℚ), 1, 2]).length ∧ (1 : ℕ) ≤ 2 ∧ 1 < 2 ∧ 2 ≤ ([(0 : ℚ), 1, 2]).length ∧
      [1].Perm (((np_argsort [(0 : ℚ), 1, 2]).drop 1).take (2 - 1))) ∧
    (∃ r, choose_templates_new [(0 : ℚ), 1, 2] 2 2 [1] = some r ∧
      r.length = 2 ∧ r.Nodup ∧
      (∃ b, r.head? = some b ∧ b < ([(0 : ℚ), 1, 2]).length ∧
        ∀ j < ([(0 : ℚ), 1, 2]).length,
          ([(0 : ℚ), 1, 2]).getD b 0 ≤ ([(0 : ℚ), 1, 2]).getD j 0) ∧
      ∀ a ∈ r.tail, a ∈ ((np_argsort [(0 : ℚ), 1, 2]).drop 1).take (2 - 1)) :=
  ⟨⟨by decide, by decide, by decide, by decide, by decide⟩,
    choose_templates_new_spec [(0 : ℚ), 1, 2] 2 2 [1]
      (by decide) (by decide) (by decide) (by decide) (by decide) (by decide)⟩

/-- Counterexample to claim C1 as stated: with the catalog `[0, 1]`
(sorted by chirp mass), `limit = 2` (so `1 < limit ≤ catalog size`) and
`n_templates = 3 ≥ 1`, the draw of `n_templates - 1 = 2` indices without
replacement from the single candidate `mismatches[1:2]` raises
`ValueError` (modelled by `none`), so no list of length 3 is returned. -/
theorem choose_templates_new_C1_counterexample :
    (1 : ℕ) ≤ 3 ∧ 1 < 2 ∧ 2 ≤ ([(0 : ℚ), 1]).length ∧
    [1].Perm (((np_argsort [(0 : ℚ), 1]).drop 1).take (2 - 1)) ∧
    choose_templates_new [(0 : ℚ), 1] 3 2 [1] = none := by decide

/-- Claim C6 (amended).  `choose_templates_new` has no dedicated
`InsufficientCandidates` failure when `limit` exceeds the catalog size: the
Python slice `mismatches[1:limit]` silently clamps, leaving
`min (limit - 1, size - 1)` candidates, and the without-replacement draw
raises (`none`) exactly when that pool is empty or smaller than
`n_templates - 1`.  In particular, for `n_templates ≤ limit ≤ size` with
`limit ≥ 2` the call succeeds even though nothing stops `limit > size`
from succeeding as well. -/
theorem choose_templates_new_raises_iff (d : List ℚ) (n limit : ℕ) (rand : List ℕ)
    (hd : 1 ≤ d.length) (hn : 1 ≤ n) :
    choose_templates_new d n limit rand = none ↔
      (min (limit - 1) (d.length - 1) = 0 ∨ min (limit - 1) (d.length - 1) < n - 1) := by
  have hplen := choose_pool_length d limit
  simp only [choose_templates_new]
  by_cases hcond : (((np_argsort d).drop 1).take (limit - 1)).isEmpty = true ∨
      (((np_argsort d).drop 1).take (limit - 1)).length < n - 1
  · rw [if_pos hcond]
    rw [List.isEmpty_iff_length_eq_zero] at hcond
    simp only [true_iff]
    omega
  · rw [if_neg hcond]
    rw [List.isEmpty_iff_length_eq_zero] at hcond
    simp only [reduceCtorEq, false_iff]
    omega

/-- Witness for the amended claim C6: on the two-template catalog with
`limit = 2`, `n_templates = 2` the characterisation shows the call does not
raise. -/
theorem choose_templates_new_raises_iff_witness :
    (1 ≤ ([(0 : ℚ), 1]).length ∧ (1 : ℕ) ≤ 2) ∧
    (choose_templates_new [(0 : ℚ), 1] 2 2 [1] = none ↔
      (min (2 - 1) (([(0 : ℚ), 1]).length - 1) = 0 ∨
        min (2 - 1) (([(0 : ℚ), 1]).length - 1) < 2 - 1)) :=
  ⟨⟨by decide, by decide⟩,
    choose_templates_new_raises_iff [(0 : ℚ), 1] 2 2 [1] (by decide) (by decide)⟩

/-- Counterexample to claim C6 as stated: with the two-template catalog
`[0, 1]` and `limit = 5` exceeding the catalog size, `choose_templates_new`
does not fail at all — it succeeds and returns `[0, 1]` — because the
Python slice `mismatches[1:5]` clamps to the single available candidate. -/
theorem choose_templates_new_C6_counterexample :
    2 < 5 ∧ ([(0 : ℚ), 1]).length = 2 ∧
    choose_templates_new [(0 : ℚ), 1] 2 5 [1] = some [0, 1] := by decide

/-! ## Section 2: chirp-mass-window template selection (waveform_utils.py lines 247-351)

`choose_templates` first computes (lines 283-294, floating point and
binary search on the chirp-mass column):
  * `best_template`  : the global argmin of `errfunc` over the catalog,
  * `low_idx, high_idx` : `np.searchsorted` bounds of the chirp-mass window.
The embedding below takes these three integers, the catalog length and
`templates_per_waveform` as parameters and models lines 296-351 exactly.
The scale computations of lines 303-316 only matter through whether
`scale1`/`scale2` are non-finite: tracing the float code,
`scale1` is `inf`/`nan` iff the left half is empty or
`sigma_low = int((best - low)/2) ≤ 0`, i.e. iff `best - low ≤ 1` or the
window is empty, and (given a finite `scale1`) `scale2` is `inf`/`nan` iff
`high - best ≤ 1`.  `np.random.choice` with a probability vector raises on
an empty population, on a too-large without-replacement sample, and on NaN
probabilities (which happens in the first branch when the right half is
also degenerate); these cases are `none`. -/

/-- Embedding of `np.arange (a, a + k)` as a list of integers. -/
def intRange (a : ℤ) (k : ℕ) : List ℤ :=
  (List.range k).map fun i : ℕ => a + (i : ℤ)

/-- Python slice `l[d:]` for a possibly negative integer index `d`. -/
def pySliceFrom (l : List ℤ) (d : ℤ) : List ℤ :=
  if 0 ≤ d then l.drop d.toNat else l.drop ((l.length : ℤ) + d).toNat

/-- Python slice `l[:d]` for a possibly negative integer index `d`. -/
def pySliceTo (l : List ℤ) (d : ℤ) : List ℤ :=
  if 0 ≤ d then l.take d.toNat else l.take ((l.length : ℤ) + d).toNat

/-- Embedding of the in-place deduplication loop of lines 343-345: walking
the array from position 1, each element found not above its (possibly
already updated) predecessor is replaced by predecessor + 1.  `prev` is the
value at the previous position. -/
def dedup_from (prev : ℤ) : List ℤ → List ℤ
  | [] => []
  | b :: rest =>
      if b ≤ prev then (prev + 1) :: dedup_from (prev + 1) rest
      else b :: dedup_from b rest

/-- The loop of lines 343-345 runs `i` over `1 … len - 2` only, so the pair
`(x[0], x[1])` — the prepended best match and the smallest sampled index —
is never compared: deduplication starts from position 1. -/
def dedup_tail : List ℤ → List ℤ
  | [] => []
  | t0 :: rest => t0 :: dedup_from t0 rest

/-- Embedding of lines 339-351 of waveform_utils.py: sort the sampled
indices, prepend the best match, run the deduplication loop (which starts
at position 1), and apply the final bounds shift
`x -= x[-1] - len(template_bank_params) - 1` when the last index reaches
the catalog end. -/
def choose_finish (catalog_len best_template : ℕ) (s : List ℤ) : List ℤ :=
  let z := (best_template : ℤ) :: dedup_tail (List.insertionSort (fun a b => a ≤ b) s)
  if (catalog_len : ℤ) ≤ z.getLastD 0 then
    z.map fun v => v - (z.getLastD 0 - (catalog_len : ℤ) - 1)
  else z

/-- Embedding of `choose_templates` (waveform_utils.py lines 296-351) past
the float front end; see the section comment.  `catalog_len` is
`len(template_bank_params)`, `tpw` is `templates_per_waveform`, and `draw`
models the outcome of the branch's `np.random.choice(..., replace=False)`
call (the drawn elements, in draw order); the narrow-window fallback
(lines 325 and 333) ignores it.  `none` models a raised `ValueError`. -/
def choose_templates (catalog_len low_idx high_idx best_template tpw : ℕ)
    (draw : List ℤ) : Option (List ℤ) :=
  let x := intRange (low_idx : ℤ) (high_idx - low_idx)
  let diff : ℤ := (best_template : ℤ) - (low_idx : ℤ)
  let sampled : Option (List ℤ) :=
    if diff ≤ 1 ∨ high_idx ≤ low_idx then
      -- scale1 is inf or nan: "Left PDF is nan, using right PDF"
      if high_idx - low_idx < tpw then
        some (intRange ((catalog_len : ℤ) - (tpw : ℤ)) (tpw - 1))
      else
        if (high_idx : ℤ) - (best_template : ℤ) ≤ 1 ∨ (pySliceFrom x diff).isEmpty ∨
            (pySliceFrom x diff).length < tpw - 1 then none
        else some draw
    else if (high_idx : ℤ) - (best_template : ℤ) ≤ 1 then
      -- scale2 is inf or nan: "Right PDF is nan, using left PDF"
      if (pySliceTo x diff).isEmpty ∨ (pySliceTo x diff).length < tpw - 1 then none
      else some draw
    else
      if high_idx - low_idx < tpw then
        some (intRange ((catalog_len : ℤ) - (tpw : ℤ)) (tpw - 1))
      else
        if x.length < tpw - 1 then none
        else some draw
  match sampled with
  | none => none
  | some s => some (choose_finish catalog_len best_template s)


theorem dedup_from_of_chain (l : List ℤ) :
    ∀ prev : ℤ, List.Chain' (· < ·) (prev :: l) → dedup_from prev l = l := by
  induction l with
  | nil => intro prev _; rfl
  | cons b rest ih =>
    intro prev h
    rw [List.chain'_cons] at h
    rw [dedup_from, if_neg (by omega), ih b h.2]

theorem dedup_tail_of_chain (l : List ℤ) (h : List.Chain' (· < ·) l) :
    dedup_tail l = l := by
  cases l with
  | nil => rfl
  | cons t0 rest => rw [dedup_tail, dedup_from_of_chain rest t0 h]

theorem getLastD_mem (l : List ℤ) : ∀ d : ℤ, l ≠ [] → l.getLastD d ∈ l := by
  induction l with
  | nil => intro d h; exact absurd rfl h
  | cons a t ih =>
    intro d _
    cases t with
    | nil => simp
    | cons b u =>
      have h2 := ih a (by simp)
      rw [show (a :: b :: u).getLastD d = (b :: u).getLastD a from rfl]
      exact List.mem_cons_of_mem a h2

theorem sorted_chain_of_nodup (l : List ℤ) (hs : l.Sorted (fun a b => a ≤ b))
    (hnd : l.Nodup) : List.Chain' (· < ·) l := by
  have hlt : l.Sorted (· < ·) := List.Sorted.lt_of_le hs hnd
  exact List.chain'_iff_pairwise.mpr hlt

theorem insertionSort_int_sorted (s : List ℤ) :
    (List.insertionSort (fun a b => a ≤ b) s).Sorted (fun a b => a ≤ b) := by
  haveI : IsTotal ℤ (fun a b => a ≤ b) := ⟨fun a b => le_total a b⟩
  haveI : IsTrans ℤ (fun a b => a ≤ b) := ⟨fun _ _ _ hab hbc => le_trans hab hbc⟩
  exact List.sorted_insertionSort _ _

/-- On a duplicate-free sample whose entries (and the best index) stay
below the catalog length, the finishing pass is the identity on
best-prepended sorted order: the deduplication loop finds the tail already
strictly ascending and the bounds shift does not fire. -/
theorem choose_finish_of_good (N best : ℕ) (s : List ℤ)
    (hnd : s.Nodup) (hmem : ∀ a ∈ s, a < (N : ℤ)) (hbest : best < N) :
    choose_finish N best s = (best : ℤ) :: List.insertionSort (fun a b => a ≤ b) s := by
  have hperm := List.perm_insertionSort (fun a b => a ≤ b) s
  have hsortnd : (List.insertionSort (fun a b => a ≤ b) s).Nodup :=
    hperm.nodup_iff.mpr hnd
  have hchain : List.Chain' (· < ·) (List.insertionSort (fun a b => a ≤ b) s) :=
    sorted_chain_of_nodup _ (insertionSort_int_sorted s) hsortnd
  have hded := dedup_tail_of_chain _ hchain
  have hzmem : ∀ a ∈ (best : ℤ) :: List.insertionSort (fun a b => a ≤ b) s, a < (N : ℤ) := by
    intro a ha
    rcases List.mem_cons.mp ha with h | h
    · subst h; exact_mod_cast hbest
    · exact hmem a (hperm.subset h)
  have hlast : ((best : ℤ) :: List.insertionSort (fun a b => a ≤ b) s).getLastD 0 < (N : ℤ) :=
    hzmem _ (getLastD_mem _ 0 (by simp))
  simp only [choose_finish, hded]
  rw [if_neg (by omega)]

/-- Claim C2 (amended).  When the sampling path is taken (window at least
`templates_per_waveform` wide, so no fallback) and the without-replacement
draw is valid — duplicate-free and inside the window `[low_idx, high_idx)`
— the returned list starts with the best match, its tail is strictly
ascending, duplicate-free and contained in the window, and it has length
`templates_per_waveform`.  The prepended best match itself may coincide
with the first tail element, because the deduplication loop of lines
343-345 never compares positions 0 and 1 (see the counterexample). -/
theorem choose_templates_window_spec (N low high best tpw : ℕ) (draw r : List ℤ)
    (htpw : 1 ≤ tpw) (hhN : high ≤ N) (hbest : best < N)
    (hwide : tpw ≤ high - low)
    (hnd : draw.Nodup) (hlen : draw.length = tpw - 1)
    (hmem : ∀ a ∈ draw, (low : ℤ) ≤ a ∧ a < (high : ℤ))
    (hres : choose_templates N low high best tpw draw = some r) :
    r.head? = some (best : ℤ) ∧
    List.Chain' (· < ·) r.tail ∧ r.tail.Nodup ∧
    (∀ a ∈ r.tail, (low : ℤ) ≤ a ∧ a < (high : ℤ)) ∧
    r.length = tpw := by
  have hmemN : ∀ a ∈ draw, a < (N : ℤ) := by
    intro a ha
    have := (hmem a ha).2
    have h2 : (high : ℤ) ≤ (N : ℤ) := by exact_mod_cast hhN
    omega
  have hfin := choose_finish_of_good N best draw hnd hmemN hbest
  have hr : r = choose_finish N best draw := by
    simp only [choose_templates, choose_finish] at hres ⊢
    split at hres
    next heq =>
      exact absurd hres (by simp)
    next s heq =>
      split at heq
      · split at heq
        · exact absurd (by omega : high - low < tpw → False) (by
            intro hcon
            exact hcon (by assumption))
        · split at heq
          · exact absurd heq (by simp)
          · cases heq
            exact (Option.some.inj hres).symm
      · split at heq
        · split at heq
          · exact absurd heq (by simp)
          · cases heq
            exact (Option.some.inj hres).symm
        · split at heq
          · exact absurd (by omega : high - low < tpw → False) (by
              intro hcon
              exact hcon (by assumption))
          · split at heq
            · exact absurd heq (by simp)
            · cases heq
              exact (Option.some.inj hres).symm
  rw [hr, hfin]
  have hperm := List.perm_insertionSort (fun a b => a ≤ b) draw
  have hsortnd : (List.insertionSort (fun a b => a ≤ b) draw).Nodup :=
    hperm.nodup_iff.mpr hnd
  have hchain : List.Chain' (· < ·) (List.insertionSort (fun a b => a ≤ b) draw) :=
    sorted_chain_of_nodup _ (insertionSort_int_sorted draw) hsortnd
  refine ⟨rfl, hchain, hsortnd, ?_, ?_⟩
  · intro a ha
    exact hmem a (hperm.subset ha)
  · simp only [List.length_cons, hperm.length_eq, hlen]
    omega

/-- Witness for the amended claim C2 on a concrete window: catalog length
10, window `[2, 8)`, best match 5, three templates, valid draw `[6, 3]`,
returned list `[5, 3, 6]`. -/
theorem choose_templates_window_spec_witness :
    ((1 : ℕ) ≤ 3 ∧ 8 ≤ 10 ∧ 5 < 10 ∧ 3 ≤ 8 - 2 ∧
      ([6, 3] : List ℤ).Nodup ∧ ([6, 3] : List ℤ).length = 3 - 1 ∧
      (∀ a ∈ ([6, 3] : List ℤ), (2 : ℤ) ≤ a ∧ a < 8) ∧
      choose_templates 10 2 8 5 3 [6, 3] = some [5, 3, 6]) ∧
    (([5, 3, 6] : List ℤ).head? = some 5 ∧
      List.Chain' (· < ·) ([5, 3, 6] : List ℤ).tail ∧
      ([5, 3, 6] : List ℤ).tail.Nodup ∧
      (∀ a ∈ ([5, 3, 6] : List ℤ).tail, (2 : ℤ) ≤ a ∧ a < 8) ∧
      ([5, 3, 6] : List ℤ).length = 3) :=
  ⟨⟨by decide, by decide, by decide, by decide, by decide, by decide, by decide, by decide⟩,
    choose_templates_window_spec 10 2 8 5 3 [6, 3] [5, 3, 6]
      (by decide) (by decide) (by decide) (by decide) (by decide) (by decide)
      (by decide) (by decide)⟩

/-- Counterexample to claim C2 as stated: catalog length 10, window
`[2, 8)`, best match 5, two templates.  The single sampled index can be
the best match itself (index 5 has positive probability under the split
truncated normal), and since the deduplication loop of lines 343-345 never
compares positions 0 and 1, the returned list is `[5, 5]` — two equal
indices, contradicting "no two returned indices are equal". -/
theorem choose_templates_C2_counterexample :
    choose_templates 10 2 8 5 2 [5] = some [5, 5] ∧
    ¬ ([5, 5] : List ℤ).Nodup ∧
    ([5] : List ℤ).Nodup ∧ ([5] : List ℤ).length = 2 - 1 ∧
    (∀ a ∈ ([5] : List ℤ), (2 : ℤ) ≤ a ∧ a < 8) := by decide

theorem intRange_length (a : ℤ) (k : ℕ) : (intRange a k).length = k := by
  rw [intRange, List.length_map, List.length_range]

theorem mem_intRange (a v : ℤ) (k : ℕ) :
    v ∈ intRange a k ↔ ∃ i : ℕ, i < k ∧ v = a + (i : ℤ) := by
  constructor
  · intro hv
    rw [intRange] at hv
    obtain ⟨i, hi, rfl⟩ := List.mem_map.mp hv
    exact ⟨i, List.mem_range.mp hi, rfl⟩
  · rintro ⟨i, hi, rfl⟩
    rw [intRange]
    exact List.mem_map.mpr ⟨i, List.mem_range.mpr hi, rfl⟩

theorem intRange_chain (a : ℤ) (k : ℕ) : List.Chain' (· < ·) (intRange a k) := by
  have hp : (List.range k).Pairwise (· < ·) := List.pairwise_lt_range k
  have hm : (intRange a k).Pairwise (· < ·) := by
    rw [intRange]
    refine List.Pairwise.map _ ?_ hp
    intro i j hij
    omega
  exact List.chain'_iff_pairwise.mpr hm

theorem intRange_nodup (a : ℤ) (k : ℕ) : (intRange a k).Nodup := by
  have := List.chain'_iff_pairwise.mp (intRange_chain a k)
  exact this.imp fun h => ne_of_lt h

/-- Claim C3 (amended).  When the chirp-mass window is narrower than the
requested template count, the fallback of lines 324-325 / 332-333 fires in
the left-degenerate and in the non-degenerate branches, and the call
returns exactly `templates_per_waveform` in-catalog indices (the best
match followed by the contiguous block next to the catalog end) without
raising.  The right-degenerate branch of lines 328-330 has no such
fallback and can raise instead (see the counterexample), so it is excluded
by the last hypothesis. -/
theorem choose_templates_narrow_spec (N low high best tpw : ℕ) (draw : List ℤ)
    (htpw : 1 ≤ tpw) (htN : tpw ≤ N) (hbest : best < N)
    (hnarrow : high - low < tpw)
    (hbr : ((best : ℤ) - (low : ℤ) ≤ 1 ∨ high ≤ low) ∨ ¬ ((high : ℤ) - (best : ℤ) ≤ 1)) :
    ∃ r, choose_templates N low high best tpw draw = some r ∧
      r.length = tpw ∧ ∀ a ∈ r, 0 ≤ a ∧ a < (N : ℤ) := by
  have hmemN : ∀ a ∈ intRange ((N : ℤ) - (tpw : ℤ)) (tpw - 1), a < (N : ℤ) := by
    intro a ha
    obtain ⟨i, hi, rfl⟩ := (mem_intRange _ a _).mp ha
    omega
  have hfin := choose_finish_of_good N best (intRange ((N : ℤ) - (tpw : ℤ)) (tpw - 1))
    (intRange_nodup _ _) hmemN hbest
  have hperm := List.perm_insertionSort (fun a b => a ≤ b)
    (intRange ((N : ℤ) - (tpw : ℤ)) (tpw - 1))
  have hsome : choose_templates N low high best tpw draw =
      some (choose_finish N best (intRange ((N : ℤ) - (tpw : ℤ)) (tpw - 1))) := by
    by_cases hc1 : ((best : ℤ) - (low : ℤ) ≤ 1 ∨ high ≤ low)
    · simp only [choose_templates, choose_finish]
      rw [if_pos hc1, if_pos hnarrow]
    · have hc2 : ¬ ((high : ℤ) - (best : ℤ) ≤ 1) := by
        rcases hbr with h | h
        · exact absurd h hc1
        · exact h
      simp only [choose_templates, choose_finish]
      rw [if_neg hc1, if_neg hc2, if_pos hnarrow]
  refine ⟨choose_finish N best (intRange ((N : ℤ) - (tpw : ℤ)) (tpw - 1)), hsome, ?_, ?_⟩
  · rw [hfin]
    simp only [List.length_cons, hperm.length_eq, intRange_length]
    omega
  · rw [hfin]
    intro a ha
    rcases List.mem_cons.mp ha with h | h
    · subst h
      constructor
      · exact_mod_cast Int.ofNat_nonneg best
      · exact_mod_cast hbest
    · obtain ⟨i, hi, rfl⟩ := (mem_intRange _ a _).mp (hperm.subset h)
      omega

/-- Witness for the amended claim C3: catalog length 5, empty-left window
`[0, 1)`, best match 0, three templates requested — the fallback returns
`[0, 2, 3]`. -/
theorem choose_templates_narrow_spec_witness :
    ((1 : ℕ) ≤ 3 ∧ 3 ≤ 5 ∧ 0 < 5 ∧ 1 - 0 < 3 ∧
      (((0 : ℤ) - (0 : ℤ) ≤ 1 ∨ (1 : ℕ) ≤ 0) ∨ ¬ ((1 : ℤ) - (0 : ℤ) ≤ 1))) ∧
    (∃ r, choose_templates 5 0 1 0 3 [] = some r ∧
      r.length = 3 ∧ ∀ a ∈ r, 0 ≤ a ∧ a < (5 : ℤ)) :=
  ⟨⟨by decide, by decide, by decide, by decide, by decide⟩,
    choose_templates_narrow_spec 5 0 1 0 3 []
      (by decide) (by decide) (by decide) (by decide) (by decide)⟩

/-- Counterexample to claim C3 as stated: catalog length 100, window
`[0, 4)` (narrower than the requested 5 templates), best match 3, so the
right half is degenerate (`high - best = 1`) while the left is not.  The
right-degenerate branch of lines 328-330 has no narrow-window fallback: it
immediately draws 4 indices without replacement from the 3-element left
half `x[:diff]`, and `np.random.choice` raises `ValueError` — no list of 5
valid indices is returned. -/
theorem choose_templates_C3_counterexample :
    (4 - 0 < 5 ∧ ((4 : ℤ) - (3 : ℤ) ≤ 1)) ∧
    choose_templates 100 0 4 3 5 [] = none := by decide

/-! ## Section 3: batched SNR row layout (asyncSNR.py lines 208-324, SNR_series.py line 262)

Per super-batch iteration the engine maps `run_batch` over the batch start
indices `n, n + B, …` (`B = samples_per_batch`, `T = n_templates`,
`mp_batch` inner batches) and then writes result `i` to the memmap rows
`[(i)*T*B + T*n, (i+1)*T*B + T*n)` (asyncSNR.py lines 323-324).  Inside a
batch, the strain of each sample is repeated `T` times along axis 0
(line 316) while the templates come from `np.ravel(template_ids[n:n+B])`
(line 212), so local row `k` pairs sample `k / T` with its `(k % T)`-th
selected template. -/

/-- Starting output row of inner batch `i` of the super-batch anchored at
sample `n`: literally `(i)*n_templates*samples_per_batch + n_templates*n`
from asyncSNR.py line 323. -/
def fp_row_start (n i T B : ℕ) : ℕ :=
  i * (T * B) + T * n

/-- Embedding of `tf.repeat(strains, T, axis=0)` (asyncSNR.py line 316):
every row is repeated `T` times consecutively. -/
def np_repeat {α : Type} (l : List α) (t : ℕ) : List α :=
  (l.map (List.replicate t)).join

/-- Embedding of `np.ravel` on a 2-d array given as a list of rows
(asyncSNR.py line 212). -/
def np_ravel {α : Type} (l : List (List α)) : List α :=
  l.join

theorem getD_replicate {α : Type} (a d : α) (t k : ℕ) (h : k < t) :
    (List.replicate t a).getD k d = a := by
  induction t generalizing k with
  | zero => omega
  | succ m ih =>
    cases k with
    | zero => rfl
    | succ j =>
      rw [List.replicate_succ]
      exact ih j (by omega)

theorem np_repeat_getD {α : Type} (l : List α) (t k : ℕ) (d : α)
    (hk : k < l.length * t) :
    (np_repeat l t).getD k d = l.getD (k / t) d := by
  induction l generalizing k with
  | nil => simp at hk
  | cons a tl ih =>
    have ht : 0 < t := by
      rcases Nat.eq_zero_or_pos t with h | h
      · subst h; simp at hk
      · exact h
    have hjoin : np_repeat (a :: tl) t = List.replicate t a ++ np_repeat tl t := by
      simp [np_repeat]
    rw [hjoin]
    by_cases hkt : k < t
    · rw [List.getD_append _ _ _ _ (by simpa using hkt)]
      rw [getD_replicate a d t k hkt, Nat.div_eq_of_lt hkt]
      rfl
    · have hlen : (List.replicate t a).length = t := List.length_replicate t a
      rw [List.getD_append_right _ _ _ _ (by omega)]
      rw [hlen]
      have hk2 : k - t < tl.length * t := by
        rw [List.length_cons, Nat.succ_mul] at hk
        omega
      rw [ih (k - t) hk2]
      have hdiv : k / t = (k - t) / t + 1 := Nat.div_eq_sub_div ht (by omega)
      rw [hdiv]
      rfl

theorem np_ravel_getD {α : Type} (l : List (List α)) (T : ℕ) (d : α) :
    ∀ k, (∀ s ∈ l, s.length = T) → k < l.length * T →
      (np_ravel l).getD k d = (l.getD (k / T) []).getD (k % T) d := by
  induction l with
  | nil => intro k _ hk; simp at hk
  | cons a tl ih =>
    intro k huni hk
    have ht : 0 < T := by
      rcases Nat.eq_zero_or_pos T with h | h
      · subst h; simp at hk
      · exact h
    have halen : a.length = T := huni a (List.mem_cons_self a tl)
    have hjoin : np_ravel (a :: tl) = a ++ np_ravel tl := by
      simp [np_ravel]
    rw [hjoin]
    by_cases hkt : k < T
    · rw [List.getD_append _ _ _ _ (by omega)]
      rw [Nat.div_eq_of_lt hkt, Nat.mod_eq_of_lt hkt]
      rfl
    · rw [List.getD_append_right _ _ _ _ (by omega)]
      rw [halen]
      have hk2 : k - T < tl.length * T := by
        rw [List.length_cons, Nat.succ_mul] at hk
        omega
      rw [ih (k - T) (fun s hs => huni s (List.mem_cons_of_mem a hs)) hk2]
      have hdiv : k / T = (k - T) / T + 1 := Nat.div_eq_sub_div ht (by omega)
      have hmod : k % T = (k - T) % T := by
        have hp : k - T + T = k := by omega
        conv =>
          lhs
          rw [← hp]
        rw [Nat.add_mod_right]
      rw [hdiv, hmod]
      rfl

/-- Claim C4 (confirmed).  Within a run with `T` templates per sample and
batch size `B`, inner batch `i` of the super-batch anchored at sample `n`
covers the samples starting at `n + i*B`, and its write range starts at
row `(n + i*B) * T` and spans `B*T` rows — i.e. rows `[m*T, (m+B)*T)` for
the batch whose samples start at `m = n + i*B` — so local row `k` lands on
global row `(sample index) * T + (template slot)` with sample index
`n + i*B + k/T` and slot `k % T`; the repeated strain at local row `k` is
the strain of local sample `k/T`, the ravelled template at local row `k`
is that sample's `(k % T)`-th selected template, and consecutive inner
batches are written in increasing, adjacent row ranges. -/
theorem fp_row_layout {α : Type} (T B n i k : ℕ) (strains : List α)
    (ids : List (List ℕ)) (d : α)
    (hk : k < B * T) (hs : strains.length = B) (hids : ids.length = B)
    (huni : ∀ s ∈ ids, s.length = T) :
    fp_row_start n i T B = (n + i * B) * T ∧
    fp_row_start n i T B + k = (n + i * B + k / T) * T + k % T ∧
    fp_row_start n (i + 1) T B = fp_row_start n i T B + B * T ∧
    (np_repeat strains T).getD k d = strains.getD (k / T) d ∧
    (np_ravel ids).getD k 0 = (ids.getD (k / T) []).getD (k % T) 0 := by
  have hdm : T * (k / T) + k % T = k := Nat.div_add_mod k T
  refine ⟨?_, ?_, ?_, ?_, ?_⟩
  · simp only [fp_row_start]
    ring
  · simp only [fp_row_start]
    nlinarith [hdm]
  · simp only [fp_row_start]
    ring
  · exact np_repeat_getD strains T k d (by rw [hs]; exact hk)
  · exact np_ravel_getD ids T 0 k huni (by rw [hids]; exact hk)

/-- Witness for claim C4 at concrete sizes: `T = 2`, `B = 3`, super-batch
anchor `n = 4`, inner batch `i = 1`, local row `k = 5`. -/
theorem fp_row_layout_witness :
    ((5 : ℕ) < 3 * 2 ∧ ([10, 20, 30] : List ℕ).length = 3 ∧
      ([[1, 2], [3, 4], [5, 6]] : List (List ℕ)).length = 3 ∧
      (∀ s ∈ ([[1, 2], [3, 4], [5, 6]] : List (List ℕ)), s.length = 2)) ∧
    (fp_row_start 4 1 2 3 = (4 + 1 * 3) * 2 ∧
      fp_row_start 4 1 2 3 + 5 = (4 + 1 * 3 + 5 / 2) * 2 + 5 % 2 ∧
      fp_row_start 4 (1 + 1) 2 3 = fp_row_start 4 1 2 3 + 3 * 2 ∧
      (np_repeat ([10, 20, 30] : List ℕ) 2).getD 5 0 = ([10, 20, 30] : List ℕ).getD (5 / 2) 0 ∧
      (np_ravel ([[1, 2], [3, 4], [5, 6]] : List (List ℕ))).getD 5 0 =
        (([[1, 2], [3, 4], [5, 6]] : List (List ℕ)).getD (5 / 2) []).getD (5 % 2) 0) :=
  ⟨⟨by decide, by decide, by decide, by decide⟩,
    fp_row_layout 2 3 4 1 5 [10, 20, 30] [[1, 2], [3, 4], [5, 6]] 0
      (by decide) (by decide) (by decide) (by decide)⟩

/-! ## Section 4: persistent output store (asyncSNR.py lines 139-146 and 345-351)

The store is a `np.memmap` of shape
`(len(ifos), n_templates*len(params['mass1']), (seconds_before+seconds_after)*sample_rate)`
created with `offset=128` and no header; batched writes overwrite row
ranges per detector; at the end `fp.flush()` runs and a npy format header
built by `np.lib.format.header_data_from_array_1_0(fp)` — whose shape is
read off the live array — is written once at the start of the file. -/

/-- The store: shape fields fixed at creation, an optional header (absent
until finalisation), and the array body addressed by
(detector, row, time sample). -/
structure Store where
  nDetectors : ℕ
  nRows : ℕ
  rowLength : ℕ
  headerShape : Option (ℕ × ℕ × ℕ)
  data : ℕ → ℕ → ℕ → ℚ

/-- Embedding of the `np.memmap(..., mode='w+', shape=(len(ifos),
n_templates*n_samples, window), offset=128)` creation of asyncSNR.py lines
141-142: zero-filled body, row count `n_templates * n_samples`, no header
yet. -/
def Store.create (nDet nTemplates nSamples windowLen : ℕ) : Store :=
  ⟨nDet, nTemplates * nSamples, windowLen, none, fun _ _ _ => 0⟩

/-- One bounded-range write `fp[det][rowStart : rowStart + rowCount] = vals`
(asyncSNR.py lines 323-324). -/
structure WriteOp where
  det : ℕ
  rowStart : ℕ
  rowCount : ℕ
  vals : ℕ → ℕ → ℚ

/-- Applying a write overwrites exactly the addressed row range of the
addressed detector and touches neither the shape fields nor the header. -/
def Store.write (s : Store) (w : WriteOp) : Store :=
  { s with data := fun dt r t =>
      if dt = w.det ∧ w.rowStart ≤ r ∧ r < w.rowStart + w.rowCount then
        w.vals (r - w.rowStart) t
      else s.data dt r t }

def Store.writeAll (s : Store) (ws : List WriteOp) : Store :=
  ws.foldl Store.write s

/-- Embedding of lines 345-351: `fp.flush()` followed by writing the npy
header whose shape is `fp.shape` at the fixed start-of-file position. -/
def Store.finalize (s : Store) : Store :=
  { s with headerShape := some (s.nDetectors, s.nRows, s.rowLength) }

theorem Store.write_shape (s : Store) (w : WriteOp) :
    (s.write w).nDetectors = s.nDetectors ∧ (s.write w).nRows = s.nRows ∧
    (s.write w).rowLength = s.rowLength := ⟨rfl, rfl, rfl⟩

theorem Store.writeAll_shape (ws : List WriteOp) : ∀ s : Store,
    (s.writeAll ws).nDetectors = s.nDetectors ∧ (s.writeAll ws).nRows = s.nRows ∧
    (s.writeAll ws).rowLength = s.rowLength := by
  induction ws with
  | nil => intro s; exact ⟨rfl, rfl, rfl⟩
  | cons w rest ih =>
    intro s
    have h1 := ih (s.write w)
    exact ⟨h1.1, h1.2.1, h1.2.2⟩

/-- Claim C9 (confirmed).  Round trip: creating the store with shape
`(nDet, T*S, W)`, performing any batch of writes that covers every row of
every detector, and finalising yields a header whose declared shape is
exactly the shape requested at creation. -/
theorem store_roundtrip (nDet T S W : ℕ) (ws : List WriteOp)
    (hcover : ∀ dt < nDet, ∀ r < T * S,
      ∃ w ∈ ws, w.det = dt ∧ w.rowStart ≤ r ∧ r < w.rowStart + w.rowCount) :
    (((Store.create nDet T S W).writeAll ws).finalize).headerShape =
      some (nDet, T * S, W) := by
  have h := Store.writeAll_shape ws (Store.create nDet T S W)
  simp only [Store.finalize, h.1, h.2.1, h.2.2]
  rfl

/-- Witness for claim C9: one detector, two templates, one sample, window
3; a single write covers both rows. -/
theorem store_roundtrip_witness :
    (∀ dt < 1, ∀ r < 2 * 1,
      ∃ w ∈ [WriteOp.mk 0 0 2 fun _ _ => 1], w.det = dt ∧ w.rowStart ≤ r ∧
        r < w.rowStart + w.rowCount) ∧
    (((Store.create 1 2 1 3).writeAll [WriteOp.mk 0 0 2 fun _ _ => 1]).finalize).headerShape =
      some (1, 2 * 1, 3) := by
  constructor
  · intro dt hdt r hr
    refine ⟨WriteOp.mk 0 0 2 fun _ _ => 1, List.mem_singleton.mpr rfl, ?_, ?_, ?_⟩
    · show (0 : ℕ) = dt
      omega
    · exact Nat.zero_le r
    · show r < 0 + 2
      omega
  · exact store_roundtrip 1 2 1 3 [WriteOp.mk 0 0 2 fun _ _ => 1]
      (by
        intro dt hdt r hr
        refine ⟨WriteOp.mk 0 0 2 fun _ _ => 1, List.mem_singleton.mpr rfl, ?_, ?_, ?_⟩
        · show (0 : ℕ) = dt
          omega
        · exact Nat.zero_le r
        · show r < 0 + 2
          omega)

/-! ## Section 5: waveform projection and noise injection (asyncSNR.py lines 186-270)

Per injected sample, `run_batch` projects the polarisations onto each
detector with the antenna-pattern coefficients (lines 196-201, the
coefficients and the inter-detector time delay come from the external
`pycbc.detector` geometry collaborator), writes the projected series into
a zero `duration*sample_rate` buffer ending at the centre-plus-offset
index (lines 256-258), circularly shifts it by
`round(delta_t_h1*sample_rate)` samples with `np.roll` (line 264) and adds
the noise (line 266).  Without injection the noise is assigned unchanged
(lines 267-270). -/

/-- Embedding of the per-detector combination of
`get_projected_waveform_mp` (asyncSNR.py line 201):
`f_plus * hp + f_cross * hc`. -/
def get_projected_waveform_mp (f_plus f_cross : ℚ) (hp hc : List ℚ) : List ℚ :=
  List.zipWith (fun p c => f_plus * p + f_cross * c) hp hc

/-- Python `round` (banker's rounding, ties to even), applied to
`delta_t_h1 * sample_rate` at asyncSNR.py line 264. -/
def pyRound (q : ℚ) : ℤ :=
  if q - ⌊q⌋ < 1 / 2 then ⌊q⌋
  else if 1 / 2 < q - ⌊q⌋ then ⌊q⌋ + 1
  else if ⌊q⌋ % 2 = 0 then ⌊q⌋ else ⌊q⌋ + 1

/-- Embedding of `np.roll(a, s)`: element `j` of the result is element
`(j - s) mod len` of the input. -/
def np_roll (l : List ℚ) (s : ℤ) : List ℚ :=
  (List.range l.length).map fun j : ℕ =>
    l.getD ((((j : ℤ) - s) % (l.length : ℤ)).toNat) 0

/-- Embedding of lines 256-258 of asyncSNR.py (equally lines 199-203 of
SNR_series.py): with `w_len = min(len(sig), M/2)` the slice
`strains[i, M/2 - w_len + offset : M/2 + offset]` of the zero row is
assigned the *whole* signal.  The numpy assignment is only legal when the
right-hand side has the length of the slice, i.e. when
`len(sig) = w_len`; otherwise numpy raises
`ValueError: could not broadcast input array` (modelled by `none`) — the
truncation suggested by the `w_len` minimum is never applied to the
right-hand side. -/
def inject_signal (M offset : ℕ) (sig : List ℚ) : Option (List ℚ) :=
  let w_len := min sig.length (M / 2)
  if sig.length = w_len then
    some ((List.range M).map fun j : ℕ =>
      if M / 2 - w_len + offset ≤ j ∧ j < M / 2 + offset then
        sig.getD (j - (M / 2 - w_len + offset)) 0
      else 0)
  else none

/-- Embedding of the strain construction of `run_batch` for one sample and
one detector (asyncSNR.py lines 240-270): with injection, place the
projected signal, roll by the rounded delay-times-sample-rate, add the
noise; without injection, the strain row is assigned the noise unchanged. -/
def run_batch_strain (M offset : ℕ) (injection : Bool) (signal : List ℚ)
    (delay_times_sr : ℚ) (noise : List ℚ) : Option (List ℚ) :=
  if injection then
    match inject_signal M offset signal with
    | none => none
    | some placed =>
        some (List.zipWith (fun a b => a + b) (np_roll placed (pyRound delay_times_sr)) noise)
  else some noise

theorem getD_map_range {α : Type} (f : ℕ → α) (n j : ℕ) (d : α) (hj : j < n) :
    ((List.range n).map f).getD j d = f j := by
  have hlen : j < ((List.range n).map f).length := by
    rw [List.length_map, List.length_range]; exact hj
  rw [List.getD_eq_getElem _ _ hlen, List.getElem_map, List.getElem_range]

theorem getD_zipWith (f : ℚ → ℚ → ℚ) (a b : List ℚ) (j : ℕ) (d : ℚ)
    (hja : j < a.length) (hjb : j < b.length) :
    (List.zipWith f a b).getD j d = f (a.getD j d) (b.getD j d) := by
  have hlen : j < (List.zipWith f a b).length := by
    rw [List.length_zipWith]; omega
  rw [List.getD_eq_getElem _ _ hlen, List.getElem_zipWith,
    List.getD_eq_getElem _ _ hja, List.getD_eq_getElem _ _ hjb]

/-- Claim C7 (confirmed).  For a sample whose injection flag is false, the
strain row is the fetched noise series itself: no signal is added and no
other modification is applied (asyncSNR.py lines 267-270). -/
theorem run_batch_noise_passthrough (M offset : ℕ) (signal noise : List ℚ) (dsr : ℚ) :
    run_batch_strain M offset false signal dsr noise = some noise := rfl

/-- Claim C8 (confirmed).  For an injected sample, each detector's series
is the linear combination `f_plus * hp + f_cross * hc` of the two
polarisations with that detector's antenna-pattern coefficients, placed in
the analysis buffer ending at the centre-plus-offset index and then
circularly shifted by `round(delay * sample_rate)` samples (`delay`
relative to the first-listed detector) before the noise is added: element
`j` of the composite strain is element `(j - shift) mod M` of the placed
signal plus element `j` of the noise. -/
theorem run_batch_projection_spec (f_plus f_cross : ℚ) (hp hc noise : List ℚ)
    (M offset : ℕ) (dsr : ℚ)
    (hlen : hp.length = hc.length) (hsig : hp.length ≤ M / 2)
    (hoff : offset ≤ M / 2) (hnoise : noise.length = M) :
    ∃ placed,
      inject_signal M offset (get_projected_waveform_mp f_plus f_cross hp hc) = some placed ∧
      placed.length = M ∧
      run_batch_strain M offset true (get_projected_waveform_mp f_plus f_cross hp hc) dsr noise =
        some (List.zipWith (fun a b => a + b) (np_roll placed (pyRound dsr)) noise) ∧
      (∀ k, (get_projected_waveform_mp f_plus f_cross hp hc).getD k 0 =
        f_plus * hp.getD k 0 + f_cross * hc.getD k 0) ∧
      (∀ k < hp.length,
        placed.getD (M / 2 - hp.length + offset + k) 0 =
          (get_projected_waveform_mp f_plus f_cross hp hc).getD k 0) ∧
      (∀ j < M,
        (List.zipWith (fun a b => a + b) (np_roll placed (pyRound dsr)) noise).getD j 0 =
          placed.getD ((((j : ℤ) - pyRound dsr) % (M : ℤ)).toNat) 0 + noise.getD j 0) := by
  have hsiglen : (get_projected_waveform_mp f_plus f_cross hp hc).length = hp.length := by
    rw [get_projected_waveform_mp, List.length_zipWith, hlen, min_self, ← hlen]
  have hwlen : min (get_projected_waveform_mp f_plus f_cross hp hc).length (M / 2) =
      (get_projected_waveform_mp f_plus f_cross hp hc).length := by
    rw [hsiglen]
    omega
  have hplaced : inject_signal M offset (get_projected_waveform_mp f_plus f_cross hp hc) =
      some ((List.range M).map fun j : ℕ =>
        if M / 2 - (get_projected_waveform_mp f_plus f_cross hp hc).length + offset ≤ j ∧
            j < M / 2 + offset then
          (get_projected_waveform_mp f_plus f_cross hp hc).getD
            (j - (M / 2 - (get_projected_waveform_mp f_plus f_cross hp hc).length + offset)) 0
        else 0) := by
    simp only [inject_signal, hwlen, eq_self_iff_true, if_true]
  refine ⟨_, hplaced, ?_, ?_, ?_, ?_, ?_⟩
  · rw [List.length_map, List.length_range]
  · simp only [run_batch_strain, hplaced, if_true]
  · intro k
    by_cases hk : k < hp.length
    · rw [get_projected_waveform_mp,
        getD_zipWith _ hp hc k 0 hk (by omega)]
    · have h1 : (get_projected_waveform_mp f_plus f_cross hp hc).getD k 0 = 0 := by
        apply List.getD_eq_default
        omega
      have h2 : hp.getD k 0 = 0 := by
        apply List.getD_eq_default
        omega
      have h3 : hc.getD k 0 = 0 := by
        apply List.getD_eq_default
        omega
      rw [h1, h2, h3]
      ring
  · intro k hk
    have hidx : M / 2 - hp.length + offset + k < M := by omega
    rw [getD_map_range _ M _ 0 hidx]
    rw [hsiglen]
    rw [if_pos (by constructor <;> omega)]
    congr 1
    omega
  · intro j hj
    have hrl : (np_roll ((List.range M).map fun j : ℕ =>
        if M / 2 - (get_projected_waveform_mp f_plus f_cross hp hc).length + offset ≤ j ∧
            j < M / 2 + offset then
          (get_projected_waveform_mp f_plus f_cross hp hc).getD
            (j - (M / 2 - (get_projected_waveform_mp f_plus f_cross hp hc).length + offset)) 0
        else 0) (pyRound dsr)).length = M := by
      rw [np_roll, List.length_map, List.length_range, List.length_map, List.length_range]
    rw [getD_zipWith _ _ _ j 0 (by omega) (by omega)]
    congr 1
    rw [np_roll]
    have hmlen : (((List.range M).map fun j : ℕ =>
        if M / 2 - (get_projected_waveform_mp f_plus f_cross hp hc).length + offset ≤ j ∧
            j < M / 2 + offset then
          (get_projected_waveform_mp f_plus f_cross hp hc).getD
            (j - (M / 2 - (get_projected_waveform_mp f_plus f_cross hp hc).length + offset)) 0
        else 0).length) = M := by
      rw [List.length_map, List.length_range]
    rw [hmlen, getD_map_range _ M j _ hj]

/-- Witness for claim C8 at a concrete instance: buffer `M = 8`, signal
`[2*1 + 1*3, 2*2 + 1*4]`, shift `round(1/4) = 0`, unit noise. -/
theorem run_batch_projection_spec_witness :
    (([(1 : ℚ), 2]).length = ([(3 : ℚ), 4]).length ∧
      ([(1 : ℚ), 2]).length ≤ 8 / 2 ∧ (0 : ℕ) ≤ 8 / 2 ∧
      (List.replicate 8 (1 : ℚ)).length = 8) ∧
    (∃ placed,
      inject_signal 8 0 (get_projected_waveform_mp 2 1 [(1 : ℚ), 2] [(3 : ℚ), 4]) =
        some placed ∧
      placed.length = 8 ∧
      run_batch_strain 8 0 true (get_projected_waveform_mp 2 1 [(1 : ℚ), 2] [(3 : ℚ), 4])
          (1 / 4) (List.replicate 8 (1 : ℚ)) =
        some (List.zipWith (fun a b => a + b) (np_roll placed (pyRound (1 / 4)))
          (List.replicate 8 (1 : ℚ))) ∧
      (∀ k, (get_projected_waveform_mp 2 1 [(1 : ℚ), 2] [(3 : ℚ), 4]).getD k 0 =
        2 * ([(1 : ℚ), 2]).getD k 0 + 1 * ([(3 : ℚ), 4]).getD k 0) ∧
      (∀ k < ([(1 : ℚ), 2]).length,
        placed.getD (8 / 2 - ([(1 : ℚ), 2]).length + 0 + k) 0 =
          (get_projected_waveform_mp 2 1 [(1 : ℚ), 2] [(3 : ℚ), 4]).getD k 0) ∧
      (∀ j < 8,
        (List.zipWith (fun a b => a + b) (np_roll placed (pyRound (1 / 4)))
            (List.replicate 8 (1 : ℚ))).getD j 0 =
          placed.getD ((((j : ℤ) - pyRound (1 / 4)) % (8 : ℤ)).toNat) 0 +
            (List.replicate 8 (1 : ℚ)).getD j 0)) :=
  ⟨⟨by decide, by decide, by decide, by decide⟩,
    run_batch_projection_spec 2 1 [(1 : ℚ), 2] [(3 : ℚ), 4] (List.replicate 8 (1 : ℚ))
      8 0 (1 / 4) (by decide) (by decide) (by decide) (by decide)⟩

/-- Claim C5 (code bug).  Embedding evaluated at the claimed scenario:
1024-sample buffer, 2048-sample signal.  Lines 256-258 compute
`w_len = min(2048, 512) = 512` but assign the *whole* 2048-sample signal
to the 512-sample slice, so numpy raises
`ValueError: could not broadcast input array` instead of silently keeping
the trailing 512 samples: the code contradicts both the claim and the
truncation its own `w_len` minimum was evidently written for. -/
theorem inject_signal_overlong_raises :
    inject_signal 1024 0 (List.replicate 2048 (1 : ℚ)) = none ∧
    min (List.replicate 2048 (1 : ℚ)).length (1024 / 2) = 512 := by
  have h : ¬ ((List.replicate 2048 (1 : ℚ)).length =
      min (List.replicate 2048 (1 : ℚ)).length (1024 / 2)) := by
    rw [List.length_replicate]
    omega
  constructor
  · simp only [inject_signal]
    exact if_neg h
  · rw [List.length_replicate]
    omega

/-! ## Section 6: mass ordering of persisted sample records (generate_configs.py)

Both record-construction sites — the injection samples accepted into
`good_params` (lines 499-501) and the pure-noise samples of `noise_p`
(lines 565-568) — run the same in-place swap before `choose_templates` is
called with the record and before the record is saved:

    if mass2 > mass1: mass1, mass2 = mass2, mass1
-/

/-- The fields of a sample record relevant to the mass-ordering invariant;
the many other persisted fields (spins, sky location, SNRs, …) are
untouched by the swap. -/
structure SampleRecord where
  mass1 : ℚ
  mass2 : ℚ
  injection : Bool

/-- The swap of generate_configs.py lines 500-501 and 567-568. -/
def order_masses (p : SampleRecord) : SampleRecord :=
  if p.mass2 > p.mass1 then { p with mass1 := p.mass2, mass2 := p.mass1 } else p

/-- The record stored into `good_params` for an accepted injection sample
(generate_configs.py lines 499-507): masses ordered, then used both for
template selection and for saving. -/
def good_params_record (p : SampleRecord) : SampleRecord :=
  order_masses p

/-- The record used for a pure-noise sample in the `noise_p` block
(generate_configs.py lines 565-583): masses ordered, then used for
template selection and appended to the params file. -/
def noise_p_record (p : SampleRecord) : SampleRecord :=
  order_masses p

/-- Claim C10 (confirmed).  Every persisted record — injection or
pure-noise — satisfies `mass2 ≤ mass1`, and the swap only exchanges the
two component masses (the unordered pair of masses is preserved, and the
injection flag is untouched). -/
theorem persisted_mass_ordering (p : SampleRecord) :
    (good_params_record p).mass2 ≤ (good_params_record p).mass1 ∧
    (noise_p_record p).mass2 ≤ (noise_p_record p).mass1 ∧
    ({(good_params_record p).mass1, (good_params_record p).mass2} : Multiset ℚ) =
      {p.mass1, p.mass2} ∧
    ({(noise_p_record p).mass1, (noise_p_record p).mass2} : Multiset ℚ) =
      {p.mass1, p.mass2} ∧
    (good_params_record p).injection = p.injection ∧
    (noise_p_record p).injection = p.injection := by
  simp only [good_params_record, noise_p_record, order_masses]
  by_cases h : p.mass2 > p.mass1
  · rw [if_pos h]
    refine ⟨le_of_lt h, le_of_lt h, ?_, ?_, rfl, rfl⟩
    · show ({p.mass2, p.mass1} : Multiset ℚ) = {p.mass1, p.mass2}
      rw [Multiset.pair_comm]
    · show ({p.mass2, p.mass1} : Multiset ℚ) = {p.mass1, p.mass2}
      rw [Multiset.pair_comm]
  · rw [if_neg h]
    exact ⟨le_of_not_lt h, le_of_not_lt h, rfl, rfl, rfl, rfl⟩
